import Mathlib

/-!
Shallow embedding of `src/dealformater/data.py`: the `SuitHolding` and `Hand`
classes of the dealformatter repository, together with spec-side definitions
used to state and settle the frozen claims.

Python strings are modelled as Lean `String`/`List Char`.  `str.upper` is
modelled on the ASCII range (the only range the program's alphabets use) by an
explicit table.  The Python substring test `a in b` and `b.index(a)` are
modelled by an explicit first-occurrence scan.  Fallible constructors raise
`ValueError` with a message; they are modelled as `Except String`.
-/

/-- Constants.HONORS from the source: one-character representations for ace
through ten. -/
def HONORS : String := "AKQJT"

/-- Constants.SUITS from the source: one-character representations for spades,
hearts, diamonds and clubs. -/
def SUITS : String := "SHDC"

/-- SuitHolding.SUIT_PIPS from the source: the four plain-mode suit
pictographs, indexed like SUITS. -/
def SUIT_PIPS : String := "♠♡♢♣"

/-- SuitHolding.SUIT_PIPS_HTML from the source: the four HTML-mode suit
fragments, indexed like SUITS; hearts and diamonds are wrapped in a red
inline style. -/
def SUIT_PIPS_HTML : List String :=
  ["&#9824;",
   "<span style=\"color: rgb(192, 22, 22);\">&#9829;</span>",
   "<span style=\"color: rgb(192, 22, 22);\">&#9830;</span>",
   "&#9827;"]

/-- Model of Python str.upper on a single character, restricted to the ASCII
letters (the program's alphabets are ASCII; other characters are returned
unchanged). -/
def upperChar (c : Char) : Char :=
  if c = 'a' then 'A' else if c = 'b' then 'B' else if c = 'c' then 'C'
  else if c = 'd' then 'D' else if c = 'e' then 'E' else if c = 'f' then 'F'
  else if c = 'g' then 'G' else if c = 'h' then 'H' else if c = 'i' then 'I'
  else if c = 'j' then 'J' else if c = 'k' then 'K' else if c = 'l' then 'L'
  else if c = 'm' then 'M' else if c = 'n' then 'N' else if c = 'o' then 'O'
  else if c = 'p' then 'P' else if c = 'q' then 'Q' else if c = 'r' then 'R'
  else if c = 's' then 'S' else if c = 't' then 'T' else if c = 'u' then 'U'
  else if c = 'v' then 'V' else if c = 'w' then 'W' else if c = 'x' then 'X'
  else if c = 'y' then 'Y' else if c = 'z' then 'Z' else c

/-- Model of Python str.upper on a whole string. -/
def upperStr (s : String) : String := String.mk (s.toList.map upperChar)

/-- First index at or after position i at which needle occurs in hay; models
Python str.index / str.find (and hence the substring test a in b). -/
def indexOfFrom (needle : List Char) : List Char → Nat → Option Nat
  | [], i => if needle = [] then some i else none
  | c :: rest, i =>
    if needle.isPrefixOf (c :: rest) then some i else indexOfFrom needle rest (i + 1)

/-- Model of Python hay.index(needle): index of the first occurrence. -/
def pyStrIndex (needle hay : List Char) : Option Nat := indexOfFrom needle hay 0

/-- Model of the Python substring test needle in hay. -/
def pyInB (needle hay : List Char) : Bool := (pyStrIndex needle hay).isSome

/-- The error message raised by SuitHolding._validate_suit. -/
def suitErrMsg : String := "Suit must be one of " ++ SUITS

/-- The error message raised by SuitHolding._validate_cards. -/
def cardsErrMsg : String := "Cards must consist of " ++ HONORS ++ "98765432 or x in proper order"

/-- SuitHolding._validate_suit from the source: uppercase the input and test
membership (Python substring test) in Constants.SUITS; on failure raise
ValueError with the invalid-suit message. -/
def validate_suit (suit : String) : Except String String :=
  let u := upperStr suit
  if pyInB u.toList SUITS.toList then Except.ok u else Except.error suitErrMsg

/-- Normalization performed by SuitHolding._validate_cards on one character:
cards.upper().replace(\x27X\x27, \x27x\x27), character by character (a
one-character pattern makes str.replace act pointwise). -/
def normalizeCard (c : Char) : Char :=
  let u := upperChar c
  if u = 'X' then 'x' else u

/-- Normalization performed by SuitHolding._validate_cards on the card
string. -/
def normalizeCards (cards : List Char) : List Char := cards.map normalizeCard

/-- The valid_cards local of SuitHolding._validate_cards:
Constants.HONORS + \x2798765432x\x27. -/
def valid_cards : String := HONORS ++ "98765432x"

/-- The validation loop of SuitHolding._validate_cards.  last is the rank
index of the previous card (initially -1), pos the position of the current
card in the normalized string.  Returns the position of the first violating
character (where the Python loop raises ValueError: either
valid_cards.index(card) fails, or the index goes down, or it stays equal on a
non-placeholder), or none when the whole string is accepted. -/
def scanCards (last : Int) (pos : Nat) : List Char → Option Nat
  | [] => none
  | card :: rest =>
    match pyStrIndex [card] valid_cards.toList with
    | none => some pos
    | some ci =>
      if (ci : Int) < last ∨ ((ci : Int) = last ∧ card ≠ 'x') then some pos
      else scanCards (ci : Int) (pos + 1) rest

/-- Position of the first character of a (normalized) card string at which
SuitHolding._validate_cards raises, if any. -/
def firstViolation (cards : List Char) : Option Nat := scanCards (-1) 0 cards

/-- SuitHolding._validate_cards from the source: normalize the card string,
run the validation loop, and return the normalized string on success or the
invalid-cards message on failure. -/
def validate_cards (cards : String) : Except String String :=
  let norm := normalizeCards cards.toList
  match firstViolation norm with
  | some _ => Except.error cardsErrMsg
  | none => Except.ok (String.mk norm)

/-- The SuitHolding class: the state stored by a successfully constructed
instance (_suit and _cards, exposed by the suit and cards properties). -/
structure SuitHolding where
  suit : String
  cards : String
deriving DecidableEq

/-- SuitHolding.__init__ from the source: validate the suit, then the cards;
a ValueError from either aborts construction. -/
def SuitHolding.init (suit cards : String) : Except String SuitHolding := do
  let s ← validate_suit suit
  let c ← validate_cards cards
  pure ⟨s, c⟩

/-- SuitHolding._suit_pip from the source:
SUIT_PIPS[Constants.SUITS.index(self.suit)].  For any holding produced by
SuitHolding.init the index exists and is below 4, so the fallback defaults
are never reached. -/
def suit_pip (h : SuitHolding) : Char :=
  (SUIT_PIPS.toList).getD ((pyStrIndex h.suit.toList SUITS.toList).getD 0) ' '

/-- SuitHolding._suit_pip_html from the source:
SUIT_PIPS_HTML[Constants.SUITS.index(self.suit)]. -/
def suit_pip_html (h : SuitHolding) : String :=
  SUIT_PIPS_HTML.getD ((pyStrIndex h.suit.toList SUITS.toList).getD 0) ""

/-- The mode test of SuitHolding.__format__:
format_spec and format_spec in \x27hH\x27. -/
def holdingHtmlTest (spec : String) : Bool :=
  !spec.isEmpty && pyInB spec.toList ("hH".toList)

/-- Model of Python str.replace(\x27T\x27, \x2710\x27) on a character list. -/
def replaceT : List Char → List Char
  | [] => []
  | c :: rest => (if c = 'T' then ['1', '0'] else [c]) ++ replaceT rest

/-- The card part of SuitHolding.__format__:
\x27 \x27.join(self.cards).replace(\x27T\x27, \x2710\x27) or \x27--\x27. -/
def holdingBody (h : SuitHolding) : String :=
  let joined := replaceT (List.intersperse ' ' h.cards.toList)
  if joined = [] then "--" else String.mk joined

/-- SuitHolding.__format__ from the source: pick the HTML pip when the mode
test passes, the plain pip otherwise, then append a space and the card
part. -/
def formatHolding (h : SuitHolding) (spec : String) : String :=
  (if holdingHtmlTest spec then suit_pip_html h else String.mk [suit_pip h])
    ++ " " ++ holdingBody h

/-- The Hand class: the four SuitHolding instances stored by a successfully
constructed instance. -/
structure Hand where
  spades : SuitHolding
  hearts : SuitHolding
  diamonds : SuitHolding
  clubs : SuitHolding
deriving DecidableEq

/-- Hand.__init__ from the source: construct the four holdings with the fixed
canonical suit symbols Constants.SUITS[0..3], in spades, hearts, diamonds,
clubs order; the first ValueError aborts construction. -/
def Hand.init (spades hearts diamonds clubs : String) : Except String Hand := do
  let sp ← SuitHolding.init "S" spades
  let he ← SuitHolding.init "H" hearts
  let di ← SuitHolding.init "D" diamonds
  let cl ← SuitHolding.init "C" clubs
  pure ⟨sp, he, di, cl⟩

/-- Hand._suits from the source: the four holdings in fixed suit order. -/
def Hand.suits (h : Hand) : List SuitHolding := [h.spades, h.hearts, h.diamonds, h.clubs]

/-- The mode test of Hand.__format__:
format_spec and format_spec in \x27Hh\x27. -/
def handHtmlTest (spec : String) : Bool :=
  !spec.isEmpty && pyInB spec.toList ("Hh".toList)

/-- Hand.__format__ from the source: join the four formatted holdings with
the mode-dependent joiner, forwarding the format spec to each holding. -/
def formatHand (h : Hand) (spec : String) : String :=
  let joiner := if handHtmlTest spec then "&nbsp;&nbsp;" else "  "
  String.intercalate joiner ((Hand.suits h).map fun s => formatHolding s spec)

/-!
Spec-side definitions.  These follow the wording of the specification and of
the claims, not the code, and are compared with the embedded code above.
-/

/-- The rank alphabet of the spec, with both cases of each letter rank and
the digit ranks: the characters a card string may use. -/
def specAlphabet : List Char :=
  ['A', 'a', 'K', 'k', 'Q', 'q', 'J', 'j', 'T', 't',
   '9', '8', '7', '6', '5', '4', '3', '2', 'x', 'X']

/-- Case normalization as the spec words it: ranks uppercased, the
placeholder lowercased (any case variant of the placeholder becomes x). -/
def specNormalize (c : Char) : Char :=
  if c = 'x' ∨ c = 'X' then 'x' else upperChar c

/-- The fixed rank order of the spec: honors high to low, then numeral ranks
high to low, then the placeholder last. -/
def specRankOrder : List Char :=
  ['A', 'K', 'Q', 'J', 'T', '9', '8', '7', '6', '5', '4', '3', '2', 'x']

/-- Index of the first occurrence of a character in a list, used for rank
positions in the fixed order. -/
def idxIn : List Char → Char → Option Nat
  | [], _ => none
  | a :: rest, c => if c = a then some 0 else (idxIn rest c).map (· + 1)

/-- Rank index of a (normalized) character in the fixed rank order. -/
def specIdx (c : Char) : Option Nat := idxIn specRankOrder c

/-- The spec's ordering condition on two adjacent normalized cards: the
second must rank strictly lower (strictly larger index), except that the
placeholder may follow itself. -/
def specPairOk (a b : Char) : Bool :=
  match specIdx a, specIdx b with
  | some i, some j => decide (i < j) || (decide (a = 'x') && decide (b = 'x'))
  | _, _ => false

/-- All adjacent pairs of a list satisfy a condition. -/
def chainB (r : Char → Char → Bool) : List Char → Bool
  | [] => true
  | [_] => true
  | a :: b :: rest => r a b && chainB r (b :: rest)

/-- A normalized character has a rank index. -/
def inAlphaB (c : Char) : Bool := (specIdx c).isSome

/-- The spec's acceptance condition on a raw card string: every character is
drawn from the rank alphabet (case-insensitively) and the case-normalized
string is strictly descending with placeholder repeats allowed. -/
def specCardsOk (cards : String) : Bool :=
  cards.toList.all (fun c => decide (c ∈ specAlphabet)) &&
    chainB specPairOk (cards.toList.map specNormalize)

/-- A (normalized) card-string prefix that is still acceptable: used to name
the first violating position of an invalid string. -/
def specGoodPrefix (l : List Char) : Bool :=
  l.all inAlphaB && chainB specPairOk l

/-- Position of a canonical suit symbol in the fixed suit order of the
spec. -/
def specSuitPos (s : String) : Nat :=
  if s = "S" then 0 else if s = "H" then 1 else if s = "D" then 2 else 3

/-- The plain pictograph the spec assigns to a canonical suit: the entry of
the fixed 4-element table at the suit position. -/
def specPip (s : String) : String :=
  String.mk [SUIT_PIPS.toList.getD (specSuitPos s) ' ']

/-- Rendering of one card as the spec words it: the rank-ten symbol is
expanded to the two-character numeral 10, every other rank stands for
itself. -/
def charRender (c : Char) : List Char :=
  if c = 'T' then ['1', '0'] else [c]

/-- Joining by single spaces, as the spec words it. -/
def joinSpace : List (List Char) → List Char
  | [] => []
  | [s] => s
  | s :: t :: rest => s ++ [' '] ++ joinSpace (t :: rest)

/-- The card part of a formatted holding as the spec words it: the cards
joined by single spaces with ten expanded, or the two-character placeholder
for an empty holding. -/
def specBody (cards : String) : String :=
  if cards = "" then "--" else String.mk (joinSpace (cards.toList.map charRender))

deriving instance DecidableEq for Except

/-- The lowercase ASCII letters, the arguments the uppercase table moves. -/
def lowerLetters : List Char :=
  ['a', 'b', 'c', 'd', 'e', 'f', 'g', 'h', 'i', 'j', 'k', 'l', 'm', 'n', 'o', 'p', 'q', 'r', 's', 't', 'u', 'v', 'w', 'x', 'y', 'z']

/-- Intermediate characterization of the validation loop: the rest of the
scan succeeds from a previous rank index last when each character has a rank
index, indices go strictly up, repeats being allowed only on the
placeholder. -/
def goodFromB (last : Int) : List Char → Bool
  | [] => true
  | c :: rest =>
    match specIdx c with
    | none => false
    | some i =>
      (decide (last < (i : Int)) || (decide ((i : Int) = last) && decide (c = 'x'))) &&
        goodFromB (i : Int) rest

/-!
Helper lemmas: characterization of the Python substring operations.
-/

/-- String.mk and toList cancel. -/
@[simp]
theorem toList_mk (l : List Char) : (String.mk l).toList = l := rfl

/-- indexOfFrom finds an index exactly when the needle is an infix of the
haystack. -/
theorem indexOfFrom_isSome_iff (needle : List Char) :
    ∀ (hay : List Char) (i : Nat),
      (indexOfFrom needle hay i).isSome = true ↔ needle <:+: hay := by
  intro hay
  induction hay with
  | nil =>
    intro i
    simp only [indexOfFrom]
    by_cases hn : needle = []
    · simp [hn]
    · simp [hn, List.infix_nil]
  | cons c rest ih =>
    intro i
    simp only [indexOfFrom]
    by_cases hp : needle.isPrefixOf (c :: rest) = true
    · simp only [hp, if_true, Option.isSome_some, true_iff]
      exact ( List.isPrefixOf_iff_prefix.mp hp).isInfix
    · simp only [hp, if_false, Bool.false_eq_true, ih (i + 1)]
      rw [List.infix_cons_iff]
      constructor
      · exact Or.inr
      · rintro (h | h)
        · exact absurd ( List.isPrefixOf_iff_prefix.mpr h) (by simpa using hp)
        · exact h

/-- The Python substring test holds exactly for infixes. -/
theorem pyInB_iff (needle hay : List Char) : pyInB needle hay = true ↔ needle <:+: hay :=
  indexOfFrom_isSome_iff needle hay 0

/-- The Python substring test on a single character is list membership. -/
theorem pyInB_singleton (c : Char) (hay : List Char) : pyInB [c] hay = true ↔ c ∈ hay := by
  rw [pyInB_iff]
  constructor
  · intro h
    exact List.singleton_sublist.mp h.sublist
  · intro h
    obtain ⟨s, t, rfl⟩ := List.append_of_mem h
    exact ⟨s, t, by simp⟩

/-- Python index of a single character agrees with the first-occurrence
index function idxIn. -/
theorem indexOfFrom_singleton (c : Char) :
    ∀ (hay : List Char) (i : Nat),
      indexOfFrom [c] hay i = (idxIn hay c).map (· + i) := by
  intro hay
  induction hay with
  | nil => intro i; simp [indexOfFrom, idxIn]
  | cons a rest ih =>
    intro i
    have hpre : ([c].isPrefixOf (a :: rest)) = (c == a) := by
      simp [List.isPrefixOf]
    by_cases hca : c = a
    · simp [indexOfFrom, idxIn, hpre, hca]
    · have hne : (c == a) = false := by simp [hca]
      simp only [indexOfFrom, idxIn, hpre, hne, Bool.false_eq_true, if_false,
        if_neg hca, ih (i + 1)]
      cases idxIn rest c with
      | none => simp
      | some j => simp; omega

/-- pyStrIndex of a single character is idxIn. -/
theorem pyStrIndex_singleton (c : Char) (hay : List Char) :
    pyStrIndex [c] hay = idxIn hay c := by
  rw [pyStrIndex, indexOfFrom_singleton]
  cases idxIn hay c <;> simp

/-- The validation alphabet of the code, as a character list, is the fixed
rank order of the spec. -/
theorem validCardsList_eq : valid_cards.toList = specRankOrder := by decide

/-- The rank lookup of the code is the rank index of the spec. -/
theorem pyStrIndex_validCards (c : Char) :
    pyStrIndex [c] valid_cards.toList = specIdx c := by
  rw [pyStrIndex_singleton, validCardsList_eq, specIdx]

/-- idxIn returns an index that carries the character looked up. -/
theorem idxIn_get (c : Char) :
    ∀ (l : List Char) (i : Nat), idxIn l c = some i → l.get? i = some c := by
  intro l
  induction l with
  | nil => intro i h; simp [idxIn] at h
  | cons a rest ih =>
    intro i h
    simp only [idxIn] at h
    by_cases hca : c = a
    · rw [if_pos hca] at h
      obtain rfl : i = 0 := by simpa using h.symm
      simp [hca]
    · rw [if_neg hca] at h
      obtain ⟨j, hj, rfl⟩ : ∃ j, idxIn rest c = some j ∧ j + 1 = i := by
        cases hx : idxIn rest c with
        | none => rw [hx] at h; simp at h
        | some j => rw [hx] at h; exact ⟨j, rfl, by simpa using h⟩
      simpa using ih j hj

/-- A character with an idxIn index is a member of the list. -/
theorem idxIn_isSome_mem (c : Char) (l : List Char) (h : (idxIn l c).isSome = true) :
    c ∈ l := by
  obtain ⟨i, hi⟩ := Option.isSome_iff_exists.mp h
  exact List.get?_mem (idxIn_get c l i hi)

/-- Two characters with the same rank index are equal. -/
theorem specIdx_inj (a b : Char) (i : Nat) (ha : specIdx a = some i) (hb : specIdx b = some i) :
    a = b := by
  have h1 := idxIn_get a specRankOrder i ha
  have h2 := idxIn_get b specRankOrder i hb
  rw [h1] at h2
  exact Option.some.inj h2

/-- The acceptance step of goodFromB is the negation of the rejection step of
the scan. -/
theorem stepB_not_viol (last : Int) (i : Nat) (c : Char) :
    (decide (last < (i : Int)) || (decide ((i : Int) = last) && decide (c = 'x'))) =
      !decide ((i : Int) < last ∨ ((i : Int) = last ∧ c ≠ 'x')) := by
  by_cases h1 : last < (i : Int) <;> by_cases h2 : (i : Int) = last <;>
    by_cases h3 : c = 'x' <;> simp [h1, h2, h3] <;> omega

/-- The scan accepts exactly when goodFromB accepts. -/
theorem scanCards_none_iff :
    ∀ (cs : List Char) (last : Int) (pos : Nat),
      scanCards last pos cs = none ↔ goodFromB last cs = true := by
  intro cs
  induction cs with
  | nil => intro last pos; simp [scanCards, goodFromB]
  | cons card rest ih =>
    intro last pos
    simp only [scanCards, goodFromB, pyStrIndex_validCards]
    cases hidx : specIdx card with
    | none => simp
    | some i =>
      dsimp only
      by_cases hv : (i : Int) < last ∨ ((i : Int) = last ∧ card ≠ 'x')
      · have hstep := stepB_not_viol last i card
        rw [if_pos hv]
        simp only [hstep, decide_eq_true_eq]
        simp [hv]
      · have hstep := stepB_not_viol last i card
        rw [if_neg hv]
        simp only [hstep]
        simp [hv, ih (i : Int) (pos + 1)]

/-- When the scan rejects at position k, the part of the string scanned so
far (relative to the starting position) is still acceptable and becomes
unacceptable exactly at the rejected character. -/
theorem scanCards_some_spec :
    ∀ (cs : List Char) (last : Int) (pos k : Nat),
      scanCards last pos cs = some k →
        pos ≤ k ∧ goodFromB last (cs.take (k - pos)) = true ∧
          goodFromB last (cs.take (k - pos + 1)) = false := by
  intro cs
  induction cs with
  | nil => intro last pos k h; simp [scanCards] at h
  | cons card rest ih =>
    intro last pos k h
    simp only [scanCards, pyStrIndex_validCards] at h
    cases hidx : specIdx card with
    | none =>
      rw [hidx] at h
      obtain rfl : pos = k := by simpa using h
      refine ⟨le_refl _, by simp [goodFromB], ?_⟩
      simp [goodFromB, hidx]
    | some i =>
      rw [hidx] at h
      dsimp only at h
      by_cases hv : (i : Int) < last ∨ ((i : Int) = last ∧ card ≠ 'x')
      · rw [if_pos hv] at h
        obtain rfl : pos = k := by simpa using h
        refine ⟨le_refl _, by simp [goodFromB], ?_⟩
        simp only [Nat.sub_self, List.take_zero, List.take_succ_cons, List.take_zero]
        simp [goodFromB, hidx, stepB_not_viol, hv]
      · rw [if_neg hv] at h
        obtain ⟨hle, hgood, hbad⟩ := ih (i : Int) (pos + 1) k h
        refine ⟨by omega, ?_, ?_⟩
        · have hk : k - pos = (k - (pos + 1)) + 1 := by omega
          rw [hk, List.take_succ_cons]
          simp [goodFromB, hidx, stepB_not_viol, hv, hgood]
        · have hk : k - pos + 1 = (k - (pos + 1) + 1) + 1 := by omega
          rw [hk, List.take_succ_cons]
          simp [goodFromB, hidx, stepB_not_viol, hv, hbad]

/-- The placeholder is the last rank. -/
theorem specIdx_x : specIdx 'x' = some 13 := by decide

/-- Continuing the scan after a character c of rank index i accepts exactly
when every remaining character has a rank index and the chain condition of
the spec holds on c followed by the rest. -/
theorem goodFromB_eq_chain :
    ∀ (rest : List Char) (c : Char) (i : Nat), specIdx c = some i →
      goodFromB (i : Int) rest = (rest.all inAlphaB && chainB specPairOk (c :: rest)) := by
  intro rest
  induction rest with
  | nil => intro c i hc; simp [goodFromB, chainB]
  | cons b rs ih =>
    intro c i hc
    simp only [goodFromB]
    cases hb : specIdx b with
    | none => simp [List.all_cons, inAlphaB, hb, chainB, specPairOk, hc]
    | some j =>
      dsimp only
      rw [ih b j hb]
      have hpair : (decide ((i : Int) < (j : Nat)) ||
          (decide (((j : Nat) : Int) = (i : Int)) && decide (b = 'x'))) = specPairOk c b := by
        by_cases h1 : i < j
        · have h1i : (i : Int) < (j : Nat) := by exact_mod_cast h1
          simp [specPairOk, hc, hb, h1, h1i]
        · have h1i : ¬ ((i : Int) < (j : Nat)) := by exact_mod_cast h1
          by_cases h2 : i = j
          · subst h2
            have hcb : c = b := specIdx_inj c b i hc hb
            subst hcb
            simp [specPairOk, hc, h1, h1i]
          · have h2i : ¬ (((j : Nat) : Int) = (i : Int)) := by
              intro hx
              exact h2 (by exact_mod_cast hx.symm)
            have hnx : ¬ (c = 'x' ∧ b = 'x') := by
              rintro ⟨rfl, rfl⟩
              rw [specIdx_x] at hc hb
              exact h2 ((Option.some.inj hc).symm.trans (Option.some.inj hb))
            simp only [specPairOk, hc, hb]
            simp [h1, h1i, h2i]
            intro hcx hbx
            exact absurd ⟨hcx, hbx⟩ hnx
      rw [hpair]
      have hbtrue : inAlphaB b = true := by simp [inAlphaB, hb]
      simp only [List.all_cons, hbtrue, Bool.true_and, chainB]
      cases specPairOk c b <;> cases rs.all inAlphaB <;>
        cases chainB specPairOk (b :: rs) <;> simp

/-- The full scan from the initial previous index -1 accepts exactly the
acceptable strings of the spec. -/
theorem goodFromB_neg_one (n : List Char) :
    goodFromB (-1) n = specGoodPrefix n := by
  cases n with
  | nil => simp [goodFromB, specGoodPrefix, chainB]
  | cons c rest =>
    simp only [goodFromB, specGoodPrefix]
    cases hc : specIdx c with
    | none => simp [List.all_cons, inAlphaB, hc]
    | some i =>
      dsimp only
      rw [goodFromB_eq_chain rest c i hc]
      have h1 : ((-1 : Int) < (i : Nat)) := by
        have := Int.natCast_nonneg i
        omega
      have h2 : ¬ (((i : Nat) : Int) = -1) := by
        have := Int.natCast_nonneg i
        omega
      have hctrue : inAlphaB c = true := by simp [inAlphaB, hc]
      simp [h1, h2, List.all_cons, hctrue]

/-- The scan of _validate_cards accepts exactly the acceptable normalized
strings of the spec. -/
theorem firstViolation_none_iff (n : List Char) :
    firstViolation n = none ↔ specGoodPrefix n = true := by
  rw [firstViolation, scanCards_none_iff n (-1) 0, goodFromB_neg_one]


/-- Every character is a lowercase letter or a fixed point of the uppercase
table. -/
theorem upperChar_cases (c : Char) : c ∈ lowerLetters ∨ upperChar c = c := by
  by_cases h1 : c = 'a'
  · exact Or.inl (by subst h1; decide)
  by_cases h2 : c = 'b'
  · exact Or.inl (by subst h2; decide)
  by_cases h3 : c = 'c'
  · exact Or.inl (by subst h3; decide)
  by_cases h4 : c = 'd'
  · exact Or.inl (by subst h4; decide)
  by_cases h5 : c = 'e'
  · exact Or.inl (by subst h5; decide)
  by_cases h6 : c = 'f'
  · exact Or.inl (by subst h6; decide)
  by_cases h7 : c = 'g'
  · exact Or.inl (by subst h7; decide)
  by_cases h8 : c = 'h'
  · exact Or.inl (by subst h8; decide)
  by_cases h9 : c = 'i'
  · exact Or.inl (by subst h9; decide)
  by_cases h10 : c = 'j'
  · exact Or.inl (by subst h10; decide)
  by_cases h11 : c = 'k'
  · exact Or.inl (by subst h11; decide)
  by_cases h12 : c = 'l'
  · exact Or.inl (by subst h12; decide)
  by_cases h13 : c = 'm'
  · exact Or.inl (by subst h13; decide)
  by_cases h14 : c = 'n'
  · exact Or.inl (by subst h14; decide)
  by_cases h15 : c = 'o'
  · exact Or.inl (by subst h15; decide)
  by_cases h16 : c = 'p'
  · exact Or.inl (by subst h16; decide)
  by_cases h17 : c = 'q'
  · exact Or.inl (by subst h17; decide)
  by_cases h18 : c = 'r'
  · exact Or.inl (by subst h18; decide)
  by_cases h19 : c = 's'
  · exact Or.inl (by subst h19; decide)
  by_cases h20 : c = 't'
  · exact Or.inl (by subst h20; decide)
  by_cases h21 : c = 'u'
  · exact Or.inl (by subst h21; decide)
  by_cases h22 : c = 'v'
  · exact Or.inl (by subst h22; decide)
  by_cases h23 : c = 'w'
  · exact Or.inl (by subst h23; decide)
  by_cases h24 : c = 'x'
  · exact Or.inl (by subst h24; decide)
  by_cases h25 : c = 'y'
  · exact Or.inl (by subst h25; decide)
  by_cases h26 : c = 'z'
  · exact Or.inl (by subst h26; decide)
  refine Or.inr ?_
  unfold upperChar
  rw [if_neg h1, if_neg h2, if_neg h3, if_neg h4, if_neg h5, if_neg h6, if_neg h7, if_neg h8, if_neg h9, if_neg h10, if_neg h11, if_neg h12, if_neg h13, if_neg h14, if_neg h15, if_neg h16, if_neg h17, if_neg h18, if_neg h19, if_neg h20, if_neg h21, if_neg h22, if_neg h23, if_neg h24, if_neg h25, if_neg h26]

/-- The only characters uppercasing to the uppercase placeholder are the two
case variants of the placeholder. -/
theorem upperChar_eq_X (c : Char) : upperChar c = 'X' ↔ (c = 'x' ∨ c = 'X') := by
  rcases upperChar_cases c with hm | hfix
  · fin_cases hm <;> decide
  · rw [hfix]
    constructor
    · exact Or.inr
    · rintro (rfl | rfl)
      · exact absurd hfix (by decide)
      · rfl

/-- The code normalization of one card character agrees with the spec
normalization on every character. -/
theorem normalizeCard_eq_specNormalize (c : Char) : normalizeCard c = specNormalize c := by
  by_cases hx : c = 'x' ∨ c = 'X'
  · rcases hx with rfl | rfl <;> decide
  · have hne : upperChar c ≠ 'X' := fun hX => hx ((upperChar_eq_X c).mp hX)
    simp only [normalizeCard, specNormalize, if_neg hne, if_neg hx]

/-- The code normalization of a card string agrees with the spec
normalization. -/
theorem normalizeCards_eq (l : List Char) : normalizeCards l = l.map specNormalize := by
  simp only [normalizeCards]
  exact List.map_congr_left fun a _ => normalizeCard_eq_specNormalize a

/-- A character of the rank alphabet normalizes to a character with a rank
index. -/
theorem specNormalize_inAlpha (c : Char) (h : c ∈ specAlphabet) :
    inAlphaB (specNormalize c) = true := by
  fin_cases h <;> decide

/-- A character whose uppercased form lies in the fixed rank order is itself
a character of the rank alphabet. -/
theorem mem_specAlphabet_of_upper (c : Char) (h : upperChar c ∈ specRankOrder) :
    c ∈ specAlphabet := by
  rcases upperChar_cases c with hm | hfix
  · fin_cases hm <;> first | decide | exact absurd h (by decide)
  · rw [hfix] at h
    fin_cases h <;> decide

/-- A character whose normalization has a rank index is a character of the
rank alphabet. -/
theorem inAlpha_mem_specAlphabet (c : Char) (h : inAlphaB (specNormalize c) = true) :
    c ∈ specAlphabet := by
  by_cases hx : c = 'x' ∨ c = 'X'
  · rcases hx with rfl | rfl <;> decide
  · rw [specNormalize, if_neg hx] at h
    exact mem_specAlphabet_of_upper c (idxIn_isSome_mem _ specRankOrder h)

/-- Bind on a successful Except is application. -/
theorem exbind_ok {α β : Type} (a : α) (f : α → Except String β) :
    (Except.ok a >>= f) = f a := rfl

/-- Bind on a failed Except propagates the error. -/
theorem exbind_err {α β : Type} (m : String) (f : α → Except String β) :
    ((Except.error m : Except String α) >>= f) = Except.error m := rfl

/-- Unfolding equation for _validate_cards. -/
theorem validate_cards_eq (cards : String) :
    validate_cards cards =
      match firstViolation (normalizeCards cards.toList) with
      | some _ => Except.error cardsErrMsg
      | none => Except.ok (String.mk (normalizeCards cards.toList)) := rfl

/-- Unfolding equation for _validate_suit. -/
theorem validate_suit_eq (suit : String) :
    validate_suit suit =
      if pyInB (upperStr suit).toList SUITS.toList then Except.ok (upperStr suit)
      else Except.error suitErrMsg := rfl

/-- The card validator either returns the normalized string or raises the
invalid-cards message. -/
theorem validate_cards_cases (cards : String) :
    validate_cards cards = Except.ok (String.mk (normalizeCards cards.toList)) ∨
      validate_cards cards = Except.error cardsErrMsg := by
  rw [validate_cards_eq]
  cases firstViolation (normalizeCards cards.toList) with
  | none => left; rfl
  | some k => right; rfl

/-- What a successful _validate_cards run reveals. -/
theorem validate_cards_ok_inv (cards s : String) (h : validate_cards cards = Except.ok s) :
    s = String.mk (normalizeCards cards.toList) ∧
      firstViolation (normalizeCards cards.toList) = none := by
  cases hfv : firstViolation (normalizeCards cards.toList) with
  | none =>
    rw [validate_cards_eq, hfv] at h
    dsimp only at h
    simp only [Except.ok.injEq] at h
    exact ⟨h.symm, rfl⟩
  | some k =>
    rw [validate_cards_eq, hfv] at h
    exact absurd h (by simp)

/-- The card validator succeeds when the scan accepts. -/
theorem validate_cards_ok_of (cards : String)
    (h : firstViolation (normalizeCards cards.toList) = none) :
    validate_cards cards = Except.ok (String.mk (normalizeCards cards.toList)) := by
  rw [validate_cards_eq, h]

/-- What a successful _validate_suit run reveals. -/
theorem validate_suit_ok_inv (suit s : String) (h : validate_suit suit = Except.ok s) :
    s = upperStr suit ∧ pyInB (upperStr suit).toList SUITS.toList = true := by
  by_cases hin : pyInB (upperStr suit).toList SUITS.toList = true
  · rw [validate_suit_eq, if_pos hin] at h
    simp only [Except.ok.injEq] at h
    exact ⟨h.symm, hin⟩
  · rw [validate_suit_eq, if_neg hin] at h
    exact absurd h (by simp)

/-- The suit validator succeeds on inputs whose uppercased form passes the
substring test. -/
theorem validate_suit_ok_of (suit : String)
    (h : pyInB (upperStr suit).toList SUITS.toList = true) :
    validate_suit suit = Except.ok (upperStr suit) := by
  rw [validate_suit_eq, if_pos h]

/-- Claim C2: for every card string composed only of rank-alphabet characters
(case-insensitive) whose ranks are strictly descending in the fixed order
except that the placeholder x may repeat, SuitHolding construction succeeds
and the stored cards equal the case-normalized input (ranks uppercased,
placeholder lowercased). -/
theorem claim_C2 (cards : String) (h : specCardsOk cards = true) :
    validate_cards cards = Except.ok (String.mk (cards.toList.map specNormalize)) ∧
    ∀ suit s : String, validate_suit suit = Except.ok s →
      SuitHolding.init suit cards =
        Except.ok ⟨s, String.mk (cards.toList.map specNormalize)⟩ := by
  have hnorm : normalizeCards cards.toList = cards.toList.map specNormalize :=
    normalizeCards_eq _
  simp only [specCardsOk, Bool.and_eq_true, List.all_eq_true, decide_eq_true_eq] at h
  obtain ⟨hall, hchain⟩ := h
  have hgp : specGoodPrefix (cards.toList.map specNormalize) = true := by
    simp only [specGoodPrefix, Bool.and_eq_true, List.all_eq_true]
    refine ⟨?_, hchain⟩
    intro c hc
    obtain ⟨a, ha, rfl⟩ := List.mem_map.mp hc
    exact specNormalize_inAlpha a (hall a ha)
  have hfv : firstViolation (normalizeCards cards.toList) = none := by
    rw [hnorm]
    exact (firstViolation_none_iff _).mpr hgp
  have hvc : validate_cards cards = Except.ok (String.mk (cards.toList.map specNormalize)) := by
    rw [← hnorm]
    exact validate_cards_ok_of cards hfv
  refine ⟨hvc, ?_⟩
  intro suit s hs
  unfold SuitHolding.init
  rw [hs, exbind_ok, hvc, exbind_ok]
  rfl

/-- Witness for claim C2 at the concrete input aKxX. -/
theorem claim_C2_witness :
    validate_cards "aKxX" = Except.ok (String.mk ("aKxX".toList.map specNormalize)) :=
  (claim_C2 "aKxX" (by decide)).1

/-- Claim C3: for every card string containing a character outside the rank
alphabet, a repeated non-placeholder rank, or an out-of-order rank,
SuitHolding construction fails with the invalid-cards error, and the failure
is located at the first violating character of a single left-to-right scan:
the scan stops at the first position whose prefix up to it is acceptable and
stops being acceptable there. -/
theorem claim_C3 (cards : String) (h : specCardsOk cards = false) :
    validate_cards cards = Except.error cardsErrMsg ∧
    ∃ k, firstViolation (normalizeCards cards.toList) = some k ∧
      specGoodPrefix ((normalizeCards cards.toList).take k) = true ∧
      specGoodPrefix ((normalizeCards cards.toList).take (k + 1)) = false := by
  have hnorm : normalizeCards cards.toList = cards.toList.map specNormalize :=
    normalizeCards_eq _
  have hne : firstViolation (normalizeCards cards.toList) ≠ none := by
    intro hnone
    have hgp := (firstViolation_none_iff _).mp hnone
    rw [hnorm] at hgp
    simp only [specGoodPrefix, Bool.and_eq_true, List.all_eq_true] at hgp
    obtain ⟨hall, hchain⟩ := hgp
    have hok : specCardsOk cards = true := by
      simp only [specCardsOk, Bool.and_eq_true, List.all_eq_true, decide_eq_true_eq]
      refine ⟨?_, hchain⟩
      intro a ha
      exact inAlpha_mem_specAlphabet a (hall (specNormalize a) (List.mem_map_of_mem _ ha))
    rw [hok] at h
    exact absurd h (by simp)
  obtain ⟨k, hk⟩ := Option.ne_none_iff_exists.mp hne
  have hk2 : scanCards (-1) 0 (normalizeCards cards.toList) = some k := hk.symm
  obtain ⟨hposle, hgood, hbad⟩ :=
    scanCards_some_spec (normalizeCards cards.toList) (-1) 0 k hk2
  rw [Nat.sub_zero] at hgood hbad
  rw [goodFromB_neg_one] at hgood hbad
  refine ⟨?_, k, hk.symm, hgood, hbad⟩
  rw [validate_cards_eq, hk.symm]

/-- Witness for claim C3 at the concrete input 2A (ascending, hence
rejected, at position 1). -/
theorem claim_C3_witness :
    validate_cards "2A" = Except.error cardsErrMsg ∧
    ∃ k, firstViolation (normalizeCards "2A".toList) = some k ∧
      specGoodPrefix ((normalizeCards "2A".toList).take k) = true ∧
      specGoodPrefix ((normalizeCards "2A".toList).take (k + 1)) = false :=
  claim_C3 "2A" (by decide)

/-- toList and String.mk cancel in the other order. -/
@[simp]
theorem mk_toList (s : String) : String.mk s.toList = s := by
  cases s
  rfl

/-- The canonical suit symbols are fixed points of the uppercase table. -/
theorem upperChar_fixed_SUITS (a : Char) (ha : a ∈ SUITS.toList) : upperChar a = a := by
  fin_cases ha <;> decide

/-- A string all of whose characters are canonical suit symbols is a fixed
point of uppercasing. -/
theorem upperStr_fixed (s : String) (hsub : ∀ a ∈ s.toList, a ∈ SUITS.toList) :
    upperStr s = s := by
  unfold upperStr
  rw [List.map_congr_left fun a ha => upperChar_fixed_SUITS a (hsub a ha)]
  simp

/-- The characters of the fixed rank order are fixed points of the card
normalization. -/
theorem normalizeCard_fixed (a : Char) (ha : a ∈ specRankOrder) : normalizeCard a = a := by
  fin_cases ha <;> decide

/-- Claim C4: reconstructing a holding from its canonical suit and cards
yields the same holding back, in particular the same cards: validation is
idempotent on canonical output. -/
theorem claim_C4 (suit cards : String) (hold : SuitHolding)
    (h : SuitHolding.init suit cards = Except.ok hold) :
    SuitHolding.init hold.suit hold.cards = Except.ok hold := by
  unfold SuitHolding.init at h
  cases hs : validate_suit suit with
  | error m => rw [hs, exbind_err] at h; exact absurd h (by simp)
  | ok s =>
    rw [hs, exbind_ok] at h
    cases hc : validate_cards cards with
    | error m => rw [hc, exbind_err] at h; exact absurd h (by simp)
    | ok c =>
      rw [hc, exbind_ok] at h
      have hold_eq : hold = ⟨s, c⟩ := (Except.ok.inj h).symm
      subst hold_eq
      obtain ⟨hs1, hs2⟩ := validate_suit_ok_inv suit s hs
      obtain ⟨hc1, hc2⟩ := validate_cards_ok_inv cards c hc
      subst hs1
      have hinf : (upperStr suit).toList <:+: SUITS.toList := (pyInB_iff _ _).mp hs2
      have hfix : upperStr (upperStr suit) = upperStr suit :=
        upperStr_fixed (upperStr suit) fun a ha => hinf.sublist.subset ha
      have hsuitok : validate_suit (upperStr suit) = Except.ok (upperStr suit) := by
        have hin2 : pyInB (upperStr (upperStr suit)).toList SUITS.toList = true := by
          rw [hfix]
          exact hs2
        have := validate_suit_ok_of (upperStr suit) hin2
        rw [hfix] at this
        exact this
      have hcl : c.toList = normalizeCards cards.toList := by
        rw [hc1]
        rfl
      have hgp := (firstViolation_none_iff _).mp hc2
      simp only [specGoodPrefix, Bool.and_eq_true, List.all_eq_true] at hgp
      obtain ⟨hallc, _⟩ := hgp
      have hnormfix : normalizeCards c.toList = c.toList := by
        rw [hcl]
        exact List.map_congr_left (fun a ha =>
          normalizeCard_fixed a (idxIn_isSome_mem a _ (hallc a ha))) |>.trans
          (List.map_id _)
      have hfv2 : firstViolation (normalizeCards c.toList) = none := by
        rw [hnormfix, hcl]
        exact hc2
      have hcardsok := validate_cards_ok_of c hfv2
      rw [hnormfix, mk_toList] at hcardsok
      show SuitHolding.init (upperStr suit) c = Except.ok ⟨upperStr suit, c⟩
      unfold SuitHolding.init
      rw [hsuitok, exbind_ok, hcardsok, exbind_ok]
      rfl

/-- Witness for claim C4: rebuilding the holding constructed from s / aKx. -/
theorem claim_C4_witness : SuitHolding.init "S" "AKx" = Except.ok ⟨"S", "AKx"⟩ :=
  claim_C4 "s" "aKx" ⟨"S", "AKx"⟩ (by decide)

/-- Counterexample to claim C1: the suit input sh uppercases to SH, which is
not one of the four canonical suit symbols, yet construction succeeds
(storing SH), because the code tests membership with the Python substring
operator.  The claim says every such input must fail with the invalid-suit
error. -/
theorem claim_C1_counterexample :
    SuitHolding.init "sh" "" = Except.ok ⟨"SH", ""⟩ ∧
      ("SH" ∉ (["S", "H", "D", "C"] : List String)) := by
  constructor
  · rfl
  · decide

/-- Claim C1 as amended: construction succeeds, storing the uppercased
input, exactly when the uppercased input is a contiguous substring of SHDC
(which includes the four canonical symbols, the empty string, and runs such
as SH, HD, DC, SHD, HDC, SHDC); on every other input it fails with the
invalid-suit error. -/
theorem claim_C1_amended (suit : String) :
    (validate_suit suit = Except.ok (upperStr suit) ↔
      (upperStr suit).toList <:+: SUITS.toList) ∧
    (validate_suit suit = Except.error suitErrMsg ↔
      ¬ (upperStr suit).toList <:+: SUITS.toList) := by
  by_cases hin : pyInB (upperStr suit).toList SUITS.toList = true
  · have hinf := (pyInB_iff _ _).mp hin
    rw [validate_suit_eq, if_pos hin]
    exact ⟨⟨fun _ => hinf, fun _ => rfl⟩,
      ⟨fun hcontra => absurd hcontra (by simp), fun hcontra => absurd hinf hcontra⟩⟩
  · have hninf : ¬ (upperStr suit).toList <:+: SUITS.toList := fun hc =>
      hin ((pyInB_iff _ _).mpr hc)
    rw [validate_suit_eq, if_neg hin]
    exact ⟨⟨fun hcontra => absurd hcontra (by simp), fun hc => absurd hc hninf⟩,
      ⟨fun _ => hninf, fun _ => rfl⟩⟩

/-- Claim C9: suit validation accepts exactly the inputs whose uppercased
form is a contiguous substring of SHDC, storing that uppercased string; in
particular sh, dc and the empty string are accepted, and a holding with the
empty suit formats with the spades pictograph. -/
theorem claim_C9 :
    (∀ suit : String, (upperStr suit).toList <:+: SUITS.toList →
        validate_suit suit = Except.ok (upperStr suit)) ∧
    SuitHolding.init "sh" "A" = Except.ok ⟨"SH", "A"⟩ ∧
    SuitHolding.init "dc" "A" = Except.ok ⟨"DC", "A"⟩ ∧
    SuitHolding.init "" "A" = Except.ok ⟨"", "A"⟩ ∧
    formatHolding ⟨"", "A"⟩ "" = "♠ A" ∧
    formatHolding ⟨"", ""⟩ "" = "♠ --" := by
  refine ⟨fun suit h => ?_, rfl, rfl, rfl, rfl, rfl⟩
  exact validate_suit_ok_of suit ((pyInB_iff _ _).mpr h)

/-- Witness for claim C9: the substring hd is accepted as a suit. -/
theorem claim_C9_witness : validate_suit "hd" = Except.ok (upperStr "hd") :=
  claim_C9.1 "hd" (by decide)

/-- Replacing the ten after joining with spaces is the same as rendering
each card and joining with single spaces. -/
theorem replaceT_intersperse (l : List Char) :
    replaceT (List.intersperse ' ' l) = joinSpace (l.map charRender) := by
  induction l with
  | nil => rfl
  | cons c rest ih =>
    cases rest with
    | nil => simp [List.intersperse, replaceT, joinSpace, charRender]
    | cons d rs =>
      rw [List.intersperse_cons_cons]
      simp only [List.map_cons]
      rw [show replaceT (c :: ' ' :: List.intersperse ' ' (d :: rs)) =
        (if c = 'T' then ['1', '0'] else [c]) ++
          ((if (' ' : Char) = 'T' then ['1', '0'] else [' ']) ++
            replaceT (List.intersperse ' ' (d :: rs))) from rfl]
      rw [if_neg (by decide : ¬ (' ' : Char) = 'T')]
      rw [ih]
      simp only [List.map_cons] at ih ⊢
      rw [show joinSpace (charRender c :: charRender d :: List.map charRender rs) =
        charRender c ++ [' '] ++ joinSpace (charRender d :: List.map charRender rs) from rfl]
      simp [charRender, List.append_assoc]

/-- A rendered card is never empty. -/
theorem charRender_ne_nil (c : Char) : charRender c ≠ [] := by
  unfold charRender
  split <;> simp

/-- Joining a nonempty first part with spaces gives a nonempty result. -/
theorem joinSpace_cons_ne_nil (s : List Char) (hs : s ≠ []) (rest : List (List Char)) :
    joinSpace (s :: rest) ≠ [] := by
  cases rest with
  | nil => simpa [joinSpace] using hs
  | cons t ts => simp [joinSpace]

/-- The card part of the holding format operation is the card part described
by the spec. -/
theorem holdingBody_eq_specBody (h : SuitHolding) : holdingBody h = specBody h.cards := by
  rw [show holdingBody h =
    (if replaceT (List.intersperse ' ' h.cards.toList) = [] then "--"
      else String.mk (replaceT (List.intersperse ' ' h.cards.toList))) from rfl]
  rw [replaceT_intersperse]
  unfold specBody
  rcases hs : h.cards with ⟨l⟩
  cases l with
  | nil => simp [joinSpace]
  | cons c cs =>
    have h1 : joinSpace ((c :: cs).map charRender) ≠ [] := by
      rw [List.map_cons]
      exact joinSpace_cons_ne_nil _ (charRender_ne_nil c) _
    have h2 : String.mk (c :: cs) ≠ "" := by
      intro hc
      exact absurd (congrArg String.toList hc) (by simp)
    simp only [toList_mk]
    rw [if_neg h1, if_neg h2]

/-- A one-character string is not empty. -/
theorem mk_single_isEmpty (c : Char) : (String.mk [c]).isEmpty = false := by
  rw [Bool.eq_false_iff]
  intro he
  have hmt := (String.isEmpty_iff _).mp he
  exact absurd (congrArg String.toList hmt) (by simp)

/-- On directives of length at most one that are not the HTML directive in
either case, the holding mode test is off. -/
theorem holdingHtmlTest_single_false (spec : String) (hlen : spec.length ≤ 1)
    (h1 : spec ≠ "h") (h2 : spec ≠ "H") : holdingHtmlTest spec = false := by
  rcases spec with ⟨l⟩
  cases l with
  | nil => decide
  | cons c rest =>
    cases rest with
    | cons d rs =>
      exfalso
      simp [String.length] at hlen
    | nil =>
      have hc1 : c ≠ 'h' := fun hc => h1 (by subst hc; rfl)
      have hc2 : c ≠ 'H' := fun hc => h2 (by subst hc; rfl)
      have hnotmem : c ∉ ("hH".toList) := by
        rw [show ("hH".toList) = ['h', 'H'] from rfl]
        intro hm
        fin_cases hm
        · exact hc1 rfl
        · exact hc2 rfl
      have hpy : pyInB [c] ("hH".toList) = false := by
        rw [Bool.eq_false_iff]
        intro ht
        exact hnotmem ((pyInB_singleton _ _).mp ht)
      unfold holdingHtmlTest
      rw [show (String.mk [c]).toList = [c] from rfl, mk_single_isEmpty, hpy]
      rfl

/-- On directives of length at most one that are not the HTML directive in
either case, the hand mode test is off. -/
theorem handHtmlTest_single_false (spec : String) (hlen : spec.length ≤ 1)
    (h1 : spec ≠ "h") (h2 : spec ≠ "H") : handHtmlTest spec = false := by
  rcases spec with ⟨l⟩
  cases l with
  | nil => decide
  | cons c rest =>
    cases rest with
    | cons d rs =>
      exfalso
      simp [String.length] at hlen
    | nil =>
      have hc1 : c ≠ 'h' := fun hc => h1 (by subst hc; rfl)
      have hc2 : c ≠ 'H' := fun hc => h2 (by subst hc; rfl)
      have hnotmem : c ∉ ("Hh".toList) := by
        rw [show ("Hh".toList) = ['H', 'h'] from rfl]
        intro hm
        fin_cases hm
        · exact hc2 rfl
        · exact hc1 rfl
      have hpy : pyInB [c] ("Hh".toList) = false := by
        rw [Bool.eq_false_iff]
        intro ht
        exact hnotmem ((pyInB_singleton _ _).mp ht)
      unfold handHtmlTest
      rw [show (String.mk [c]).toList = [c] from rfl, mk_single_isEmpty, hpy]
      rfl

/-- Claim C5: for holdings over a canonical suit, plain-mode formatting is
the pictograph of the fixed 4-element table at the suit position, a space,
and the cards joined by single spaces with the ten expanded to 10 (or the
placeholder -- when the holding is empty); in particular the holding built
from s / AKQJT formats as the spade pictograph followed by A K Q J 10. -/
theorem claim_C5 :
    (∀ (h : SuitHolding) (spec : String),
        (h.suit = "S" ∨ h.suit = "H" ∨ h.suit = "D" ∨ h.suit = "C") →
        holdingHtmlTest spec = false →
        formatHolding h spec = specPip h.suit ++ " " ++ specBody h.cards) ∧
    SuitHolding.init "s" "AKQJT" = Except.ok ⟨"S", "AKQJT"⟩ ∧
    formatHolding ⟨"S", "AKQJT"⟩ "" = "♠ A K Q J 10" := by
  refine ⟨?_, rfl, rfl⟩
  intro h spec hsuit htest
  unfold formatHolding
  rw [htest, if_neg (by simp), holdingBody_eq_specBody]
  have hpip : String.mk [suit_pip h] = specPip h.suit := by
    rcases hsuit with h1 | h1 | h1 | h1 <;> simp only [suit_pip, specPip, h1] <;> rfl
  rw [hpip]

/-- Witness for claim C5: the concrete holding S / AKQJT with the empty
(plain) directive. -/
theorem claim_C5_witness :
    formatHolding ⟨"S", "AKQJT"⟩ "" = specPip "S" ++ " " ++ specBody "AKQJT" :=
  claim_C5.1 ⟨"S", "AKQJT"⟩ "" (Or.inl rfl) (by decide)

/-- Claim C6: the single-character directives h and H select HTML mode, in
which the pictograph is replaced by the markup fragment of the parallel
table (hearts and diamonds carrying the red inline style) while the card
part is identical to plain mode; every other directive of length at most
one, including the absent (empty) directive, silently selects plain mode. -/
theorem claim_C6 :
    (∀ (h : SuitHolding) (spec : String), spec = "h" ∨ spec = "H" →
        formatHolding h spec = suit_pip_html h ++ " " ++ specBody h.cards) ∧
    (∀ (h : SuitHolding) (spec : String), spec.length ≤ 1 → spec ≠ "h" → spec ≠ "H" →
        formatHolding h spec = String.mk [suit_pip h] ++ " " ++ specBody h.cards) ∧
    (∀ h : SuitHolding, h.suit = "H" →
        suit_pip_html h = "<span style=\"color: rgb(192, 22, 22);\">&#9829;</span>") ∧
    (∀ h : SuitHolding, h.suit = "D" →
        suit_pip_html h = "<span style=\"color: rgb(192, 22, 22);\">&#9830;</span>") := by
  refine ⟨?_, ?_, ?_, ?_⟩
  · intro h spec hspec
    have ht : holdingHtmlTest spec = true := by rcases hspec with rfl | rfl <;> decide
    unfold formatHolding
    rw [ht, if_pos rfl, holdingBody_eq_specBody]
  · intro h spec hlen h1 h2
    have ht := holdingHtmlTest_single_false spec hlen h1 h2
    unfold formatHolding
    rw [ht, if_neg (by simp), holdingBody_eq_specBody]
  · intro h hH
    simp only [suit_pip_html, hH]
    rfl
  · intro h hD
    simp only [suit_pip_html, hD]
    rfl

/-- Witness for claim C6: concrete holdings exercising the HTML directive,
a fallback directive, and the red heart fragment. -/
theorem claim_C6_witness :
    formatHolding ⟨"H", ""⟩ "H" = suit_pip_html ⟨"H", ""⟩ ++ " " ++ specBody "" ∧
    formatHolding ⟨"H", ""⟩ "q" = String.mk [suit_pip ⟨"H", ""⟩] ++ " " ++ specBody "" ∧
    suit_pip_html ⟨"H", ""⟩ = "<span style=\"color: rgb(192, 22, 22);\">&#9829;</span>" :=
  ⟨claim_C6.1 ⟨"H", ""⟩ "H" (Or.inr rfl),
   claim_C6.2.1 ⟨"H", ""⟩ "q" (by decide) (by decide) (by decide),
   claim_C6.2.2.1 ⟨"H", ""⟩ rfl⟩

/-- Counterexample to claim C7: the two-character directive Hh is not the
HTML directive (which is a single character, h or H, so Hh selects plain
mode), yet Hand formatting joins with the HTML non-breaking-space pair
instead of the two spaces the claim requires for plain mode; the four
renderings themselves use the plain pictographs. -/
theorem claim_C7_counterexample :
    Hand.init "" "" "" "" = Except.ok ⟨⟨"S", ""⟩, ⟨"H", ""⟩, ⟨"D", ""⟩, ⟨"C", ""⟩⟩ ∧
    ¬ (("Hh" : String) = "h" ∨ ("Hh" : String) = "H") ∧
    formatHand ⟨⟨"S", ""⟩, ⟨"H", ""⟩, ⟨"D", ""⟩, ⟨"C", ""⟩⟩ "Hh" =
      "♠ --&nbsp;&nbsp;♡ --&nbsp;&nbsp;♢ --&nbsp;&nbsp;♣ --" ∧
    formatHand ⟨⟨"S", ""⟩, ⟨"H", ""⟩, ⟨"D", ""⟩, ⟨"C", ""⟩⟩ "Hh" ≠
      String.intercalate "  "
        ((Hand.suits ⟨⟨"S", ""⟩, ⟨"H", ""⟩, ⟨"D", ""⟩, ⟨"C", ""⟩⟩).map
          fun x => formatHolding x "Hh") :=
  ⟨rfl, by decide, rfl, by decide⟩

/-- Claim C7 as amended: for every successfully constructed Hand and every
directive of length at most one (absent or single-character), Hand
formatting formats all four holdings in fixed suit order with the directive
forwarded unchanged, and joins them with the HTML non-breaking-space pair
when the directive is the HTML directive (h or H) and with two spaces
otherwise. -/
theorem claim_C7_amended (s h d c : String) (hd : Hand)
    (hmk : Hand.init s h d c = Except.ok hd) (spec : String) (hlen : spec.length ≤ 1) :
    formatHand hd spec =
      String.intercalate (if spec = "h" ∨ spec = "H" then "&nbsp;&nbsp;" else "  ")
        ((Hand.suits hd).map fun x => formatHolding x spec) := by
  unfold formatHand
  by_cases hs : spec = "h" ∨ spec = "H"
  · have ht : handHtmlTest spec = true := by rcases hs with rfl | rfl <;> decide
    rw [ht, if_pos rfl, if_pos hs]
  · have hs2 := hs
    push_neg at hs2
    have ht := handHtmlTest_single_false spec hlen hs2.1 hs2.2
    rw [ht, if_neg (by simp), if_neg hs]

/-- Witness for claim C7 as amended: the empty hand with the directive h. -/
theorem claim_C7_amended_witness :
    formatHand ⟨⟨"S", ""⟩, ⟨"H", ""⟩, ⟨"D", ""⟩, ⟨"C", ""⟩⟩ "h" =
      String.intercalate
        (if ("h" : String) = "h" ∨ ("h" : String) = "H" then "&nbsp;&nbsp;" else "  ")
        ((Hand.suits ⟨⟨"S", ""⟩, ⟨"H", ""⟩, ⟨"D", ""⟩, ⟨"C", ""⟩⟩).map
          fun x => formatHolding x "h") :=
  claim_C7_amended "" "" "" "" ⟨⟨"S", ""⟩, ⟨"H", ""⟩, ⟨"D", ""⟩, ⟨"C", ""⟩⟩ rfl "h"
    (by decide)

/-- A SuitHolding construction with an already canonical suit reduces to the
card validation. -/
theorem SuitHolding_init_canonical (u cs : String) (hu : validate_suit u = Except.ok u) :
    SuitHolding.init u cs =
      match validate_cards cs with
      | Except.ok cc => Except.ok ⟨u, cc⟩
      | Except.error m => Except.error m := by
  unfold SuitHolding.init
  rw [hu, exbind_ok]
  cases hc : validate_cards cs with
  | ok cc => rw [exbind_ok]; rfl
  | error m => rw [exbind_err]

/-- Success of a canonical-suit SuitHolding construction is success of the
card validation. -/
theorem SuitHolding_init_canonical_isOk (u cs : String)
    (hu : validate_suit u = Except.ok u) :
    (SuitHolding.init u cs).isOk = (validate_cards cs).isOk := by
  rw [SuitHolding_init_canonical u cs hu]
  cases validate_cards cs <;> rfl

/-- Hand construction reduces to the four card validations against the fixed
canonical suit symbols, in fixed suit order, with the first error
propagated. -/
theorem Hand_init_eq (s h d c : String) :
    Hand.init s h d c =
      match validate_cards s with
      | Except.error m => Except.error m
      | Except.ok cs =>
        match validate_cards h with
        | Except.error m => Except.error m
        | Except.ok ch =>
          match validate_cards d with
          | Except.error m => Except.error m
          | Except.ok cd =>
            match validate_cards c with
            | Except.error m => Except.error m
            | Except.ok cc =>
              Except.ok ⟨⟨"S", cs⟩, ⟨"H", ch⟩, ⟨"D", cd⟩, ⟨"C", cc⟩⟩ := by
  unfold Hand.init
  rw [SuitHolding_init_canonical "S" s rfl]
  cases hs : validate_cards s with
  | error m => rw [exbind_err]
  | ok cs =>
    rw [exbind_ok, SuitHolding_init_canonical "H" h rfl]
    cases hh : validate_cards h with
    | error m => rw [exbind_err]
    | ok ch =>
      rw [exbind_ok, SuitHolding_init_canonical "D" d rfl]
      cases hd2 : validate_cards d with
      | error m => rw [exbind_err]
      | ok cd =>
        rw [exbind_ok, SuitHolding_init_canonical "C" c rfl]
        cases hc2 : validate_cards c with
        | error m => rw [exbind_err]
        | ok cc => rw [exbind_ok]; rfl

/-- Claim C8: Hand construction succeeds exactly when each of the four card
strings passes SuitHolding validation with its fixed canonical suit symbol
independently (no cross-suit check, as the all-duplicate hand A/A/A/A
shows), and a failed construction is exactly the invalid-cards error. -/
theorem claim_C8 :
    (∀ s h d c : String,
        ((Hand.init s h d c).isOk = true ↔
          ((SuitHolding.init "S" s).isOk = true ∧ (SuitHolding.init "H" h).isOk = true ∧
            (SuitHolding.init "D" d).isOk = true ∧ (SuitHolding.init "C" c).isOk = true)) ∧
        ((Hand.init s h d c).isOk = false → Hand.init s h d c = Except.error cardsErrMsg)) ∧
    Hand.init "A" "A" "A" "A" =
      Except.ok ⟨⟨"S", "A"⟩, ⟨"H", "A"⟩, ⟨"D", "A"⟩, ⟨"C", "A"⟩⟩ := by
  refine ⟨?_, rfl⟩
  intro s h d c
  rw [Hand_init_eq, SuitHolding_init_canonical_isOk "S" s rfl,
    SuitHolding_init_canonical_isOk "H" h rfl, SuitHolding_init_canonical_isOk "D" d rfl,
    SuitHolding_init_canonical_isOk "C" c rfl]
  rcases validate_cards_cases s with hs | hs <;> rw [hs] <;>
    rcases validate_cards_cases h with hh | hh <;> rw [hh] <;>
      rcases validate_cards_cases d with hd2 | hd2 <;> rw [hd2] <;>
        rcases validate_cards_cases c with hc2 | hc2 <;> rw [hc2] <;>
          simp [Except.isOk, Except.toBool]

/-- Witness for claim C8: a hand whose spades string is rejected propagates
the invalid-cards error. -/
theorem claim_C8_witness : Hand.init "2A" "" "" "" = Except.error cardsErrMsg :=
  (claim_C8.1 "2A" "" "" "").2 (by decide)

/-- Counterexample to claim C10: the exact directive hH does select HTML
mode in SuitHolding formatting, but Hand formatting tests the directive
against Hh, so hH does not select the HTML joiner there: the four holdings
render with HTML pips while the joiner stays the plain two spaces. -/
theorem claim_C10_counterexample :
    holdingHtmlTest "hH" = true ∧ handHtmlTest "hH" = false ∧
    formatHand ⟨⟨"S", ""⟩, ⟨"H", ""⟩, ⟨"D", ""⟩, ⟨"C", ""⟩⟩ "hH" =
      "&#9824; --  <span style=\"color: rgb(192, 22, 22);\">&#9829;</span> --  " ++
        "<span style=\"color: rgb(192, 22, 22);\">&#9830;</span> --  &#9827; --" :=
  ⟨by decide, by decide, rfl⟩

/-- Claim C10 as amended: among directives longer than one character, the
only one selecting HTML mode in SuitHolding formatting is exactly hH (the
substring test against hH), while the only one selecting the HTML joiner in
Hand formatting is exactly Hh (the substring test against Hh); every other
directive of length greater than one selects plain mode in both. -/
theorem claim_C10_amended (spec : String) (hlen : 1 < spec.length) :
    (holdingHtmlTest spec = true ↔ spec = "hH") ∧
    (handHtmlTest spec = true ↔ spec = "Hh") := by
  constructor
  · constructor
    · intro ht
      unfold holdingHtmlTest at ht
      obtain ⟨h1, h2⟩ := by simpa [Bool.and_eq_true] using ht
      have hinf := (pyInB_iff _ _).mp h2
      have hdata : spec.data = ['h', 'H'] := by
        have hle := hinf.sublist.length_le
        have hlen2 : 1 < spec.data.length := hlen
        exact hinf.sublist.eq_of_length (by simp at hle ⊢; omega)
      have hmk2 : String.mk spec.data = String.mk ['h', 'H'] := congrArg String.mk hdata
      exact ((mk_toList spec).symm.trans hmk2).trans (by decide)
    · rintro rfl
      decide
  · constructor
    · intro ht
      unfold handHtmlTest at ht
      obtain ⟨h1, h2⟩ := by simpa [Bool.and_eq_true] using ht
      have hinf := (pyInB_iff _ _).mp h2
      have hdata : spec.data = ['H', 'h'] := by
        have hle := hinf.sublist.length_le
        have hlen2 : 1 < spec.data.length := hlen
        exact hinf.sublist.eq_of_length (by simp at hle ⊢; omega)
      have hmk2 : String.mk spec.data = String.mk ['H', 'h'] := congrArg String.mk hdata
      exact ((mk_toList spec).symm.trans hmk2).trans (by decide)
    · rintro rfl
      decide

/-- Witness for claim C10 as amended: the two-character directive ab selects
plain mode in both formatting operations. -/
theorem claim_C10_amended_witness :
    (holdingHtmlTest "ab" = true ↔ ("ab" : String) = "hH") ∧
    (handHtmlTest "ab" = true ↔ ("ab" : String) = "Hh") :=
  claim_C10_amended "ab" (by decide)
